import Mathlib

/-!
Shallow embedding of the core data pipeline of `invoice_app_v3.py`
(the Superdrug ITG invoice generator): hour rounding, event-code
derivation, the timesheet read loop and type classification, the
production-file combiner, the studio aggregator, the timesheet merge,
the cost preview, and the invoice output naming.

Tabular data is embedded as lists of records; pandas floats are embedded
as rationals (with null cells as `Option`); the status columns are
strings.  Row order inside a table is the source order; the pandas
`groupby` used by the studio aggregator sorts its group labels, but no
property below depends on the order of the aggregated output rows, so
group labels are listed here in first-occurrence order.
-/

namespace InvoiceApp

/-! ## String helpers (the Python `str` operations used by the app) -/

/-- Python substring test over lists of characters: the needle occurs
contiguously somewhere in the haystack. -/
def containsSubList (needle : List Char) : List Char → Bool
  | [] => needle.isEmpty
  | c :: t => needle.isPrefixOf (c :: t) || containsSubList needle t

/-- Python `needle in hay` on strings. -/
def containsSubstring (hay needle : String) : Bool :=
  containsSubList needle.toList hay.toList

/-- Python `str.lower()`, character by character (the data here is ASCII). -/
def pyLower (s : String) : String := String.mk (s.toList.map Char.toLower)

/-! ## round_up_to_quarter (invoice_app_v3.py, lines 39-43)

Hours are embedded as rationals, so the `pd.isna` guard of the source
cannot fire and only the `hours == 0` guard remains; `math.ceil(h * 4) / 4`
is the integer ceiling divided by four. -/

def round_up_to_quarter (hours : ℚ) : ℚ :=
  if hours = 0 then 0 else (⌈hours * 4⌉ : ℚ) / 4

/-! ## convert_event_to_code (lines 45-52)

The source runs `re.search(r'Event\s+(\d+)\s+(\d{4})', name, re.IGNORECASE)`.
`matchEventAt` matches that pattern at the head of a character list
(`\s+` and `\d+` are the maximal runs, which is what the regex engine
commits to since `\s` and `\d` are disjoint), and `searchEvent` scans for
the leftmost match as `re.search` does. -/

def isSpaceChar (c : Char) : Bool :=
  c == ' ' || c == '\t' || c == '\n' || c == '\r' || c == '\x0b' || c == '\x0c'

def isDigitChar (c : Char) : Bool := c.isDigit

/-- Python `str.strip()`: remove leading and trailing whitespace. -/
def pyStrip (s : String) : String :=
  String.mk (((s.toList.dropWhile isSpaceChar).reverse.dropWhile isSpaceChar).reverse)

/-- Non-empty maximal run of characters satisfying `p` at the head of `cs`
(the commitment a `\s+` or `\d+` atom makes), with the remainder. -/
def reqRun (p : Char → Bool) (cs : List Char) : Option (List Char × List Char) :=
  if (cs.takeWhile p).isEmpty then none else some (cs.takeWhile p, cs.dropWhile p)

/-- Match of the event pattern anchored at the head of `cs`, returning the
two captured groups (the digit run and the four-digit year). -/
def matchEventAt (cs : List Char) : Option (List Char × List Char) :=
  if (cs.take 5).map Char.toLower ≠ ['e', 'v', 'e', 'n', 't'] then none
  else
    match reqRun isSpaceChar (cs.drop 5) with
    | none => none
    | some (_, rest2) =>
      match reqRun isDigitChar rest2 with
      | none => none
      | some (num, rest3) =>
        match reqRun isSpaceChar rest3 with
        | none => none
        | some (_, rest4) =>
          let year := rest4.take 4
          if year.length == 4 && year.all isDigitChar then some (num, year)
          else none

/-- Leftmost search for the event pattern, as `re.search` does. -/
def searchEvent : List Char → Option (List Char × List Char)
  | [] => none
  | c :: rest =>
    match matchEventAt (c :: rest) with
    | some g => some g
    | none => searchEvent rest

/-- Python `str.zfill(2)`: left-pad with zeros to width two. -/
def zfill2 (s : List Char) : List Char :=
  if 2 ≤ s.length then s else List.replicate (2 - s.length) '0' ++ s

def convert_event_to_code (eventName : String) : String :=
  match searchEvent eventName.toList with
  | some (num, year) => String.mk ('E' :: (zfill2 num ++ year.drop 2))
  | none => "E0000"

/-- Segment of `cs` from index `a` (inclusive) to index `b` (exclusive). -/
def slice (cs : List Char) (a b : Nat) : List Char := (cs.drop a).take (b - a)

/-- Modelled from the spec wording of the event-name pattern, for comparison
with the regex search of the source: the free-text name contains,
case-insensitively, the word `Event`, then whitespace, then a digit run,
then whitespace, then four digits (`Event <digits> <4-digit year>`). -/
def eventPatternB (s : String) : Bool :=
  let cs := s.toList
  let n := cs.length
  (List.range (n + 1)).any fun i =>
    (slice cs i (i + 5)).map Char.toLower == ['e', 'v', 'e', 'n', 't'] &&
    ((List.range (n + 1)).any fun j =>
      ((List.range (n + 1)).any fun k =>
        ((List.range (n + 1)).any fun l =>
          decide (i + 5 < j) && decide (j < k) && decide (k < l) &&
          decide (l + 4 ≤ n) &&
          (slice cs (i + 5) j).all isSpaceChar &&
          (slice cs j k).all isDigitChar &&
          (slice cs k l).all isSpaceChar &&
          (slice cs l (l + 4)).all isDigitChar)))

/-! ## process_timesheet: type classification (lines 120-131)

`determine_type` is applied to the modal `Charge Code` of each aggregated
group; a missing value (`pd.isna`) is embedded as `none`. -/

def determine_type (chargeCode : Option String) : String :=
  match chargeCode with
  | none => "Artwork"
  | some cc =>
    let lowered := pyLower cc
    if containsSubstring lowered "creative" then "Creative Artwork"
    else if containsSubstring lowered "digital" || containsSubstring lowered "tec" then
      "Digital"
    else "Artwork"

/-! ## process_timesheet: encoding-fallback read loop (lines 54-89) -/

inductive Enc where
  | utf8sig
  | utf16
  | latin1
  | cp1252
deriving DecidableEq

/-- The fallback encodings tried by `process_timesheet`, in source order. -/
def encodings : List Enc := [.utf8sig, .utf16, .latin1, .cp1252]

/-- One raw timesheet row as `pd.read_csv` would deliver it. -/
structure TimesheetEntry where
  jobNumber : String
  jobDescription : String
  chargeCode : Option String
  total : ℚ
deriving DecidableEq

/-- Outcome of one `pd.read_csv` attempt under a given encoding: success,
a `UnicodeDecodeError`, or any other exception. -/
inductive ReadOutcome where
  | ok (rows : List TimesheetEntry)
  | decodeErr
  | otherErr
deriving DecidableEq

def isOkOutcome : ReadOutcome → Bool
  | .ok _ => true
  | _ => false

/-- The kind of exception last recorded by the read loop. -/
inductive ErrKind where
  | decode
  | other
deriving DecidableEq

/-- Transcription of the encoding loop of `process_timesheet`: a
`UnicodeDecodeError` is recorded and the next encoding is tried; any other
exception is recorded and the loop breaks; success stops the loop. -/
def readLoop (f : Enc → ReadOutcome) :
    List Enc → Option ErrKind → Option (List TimesheetEntry) × Option ErrKind
  | [], last => (none, last)
  | e :: rest, last =>
    match f e with
    | .ok t => (some t, last)
    | .decodeErr => readLoop f rest (some .decode)
    | .otherErr => (none, some .other)

/-- Which `st.error` message the failure path emits:
`decodeMsg` for the unable-to-decode message, `genericMsg` for the
failed-to-read message carrying the exception text, `unknownMsg` for the
fallback message with no recorded exception. -/
inductive ReportKind where
  | decodeMsg
  | genericMsg
  | unknownMsg
deriving DecidableEq

inductive TimesheetReadResult where
  | parsed (rows : List TimesheetEntry)
  | errorEmpty (report : ReportKind)
deriving DecidableEq

/-- Read phase of `process_timesheet`: when no encoding produced a frame the
matching error is reported via `st.error` and an empty frame is returned;
the function returns normally on every input. -/
def processTimesheetRead (f : Enc → ReadOutcome) : TimesheetReadResult :=
  match readLoop f encodings none with
  | (some t, _) => .parsed t
  | (none, some .decode) => .errorEmpty .decodeMsg
  | (none, some .other) => .errorEmpty .genericMsg
  | (none, none) => .errorEmpty .unknownMsg

/-! ## Production line items -/

/-- One production line item, restricted to the columns the pipeline under
verification reads; the remaining columns are carried through the combiner
untouched and never inspected. -/
structure ProdRow where
  projectRef : String
  eventName : String
  projectDescription : String
  projectOwner : String
  briefRef : String
  contentBriefStatus : String
  productionSupplierBriefStatus : String
  productionSellPrice : Option ℚ
  totalIncludingSpares : Option ℚ
deriving DecidableEq

/-- Annotated production table; `hasStatusCol` records whether the optional
`Content Brief Status` column is present (an absent column is read as the
empty string for every row). -/
structure ProdTable where
  hasStatusCol : Bool
  rows : List ProdRow

/-! ## load_production_files (lines 211-232) -/

/-- Stable first-occurrence deduplication on a string key, the behaviour of
`drop_duplicates(subset=[...], keep='first')`. -/
def dedupByAux {α : Type} (key : α → String) (seen : List String) :
    List α → List α
  | [] => []
  | r :: rs =>
    if key r ∈ seen then dedupByAux key seen rs
    else r :: dedupByAux key (key r :: seen) rs

/-- Combination step of `load_production_files`: all rows of all files are
concatenated in input order (per-file row order preserved) and
`drop_duplicates` on `Brief Ref` keeps the first occurrence. -/
def load_production_files (files : List (List ProdRow)) : List ProdRow :=
  dedupByAux (fun r => r.briefRef) [] files.flatten

/-! ## prepare_studio_data (lines 268-339) -/

/-- The fixed studio warning comment of `prepare_studio_data`. -/
def commentText : String :=
  "check all lines are approved, artwork hours may require updating"

/-- Normalised `Content Brief Status` of a row: strip whitespace then
lowercase; an absent status column reads as the empty string. -/
def statusLower (t : ProdTable) (r : ProdRow) : String :=
  if t.hasStatusCol then pyLower (pyStrip r.contentBriefStatus) else ""

/-- The list of normalised statuses of one project's line items, in row
order (the per-group list built by the groupby in the source). -/
def projStatuses (t : ProdTable) (p : String) : List String :=
  (t.rows.filter fun r => r.projectRef == p).map (statusLower t)

/-- The keep/drop decision of the status loop: an empty status list keeps
the project; a non-empty set of statuses contained in the singleton
`not applicable` drops it; anything else keeps it. -/
def keepProject (t : ProdTable) (p : String) : Bool :=
  let sts := projStatuses t p
  if sts.isEmpty then true
  else !(sts.all fun s => s == "not applicable")

/-- The comment decision of the status loop: an empty status list marks the
project; otherwise it is marked when any status in the (full) list differs
from `completed`. -/
def commentProject (t : ProdTable) (p : String) : Bool :=
  let sts := projStatuses t p
  if sts.isEmpty then true
  else sts.any fun s => s != "completed"

/-- One aggregated studio job record. -/
structure StudioRow where
  projectRef : String
  eventName : String
  projectDescription : String
  projectOwner : String
  lines : Nat
  studioHours : Option ℚ
  type : String
  coreOrOab : String
  studioComment : String
deriving DecidableEq

/-- A row survives into the aggregation when its project is kept and its
own normalised status is not `not applicable`. -/
def validRow (t : ProdTable) (r : ProdRow) : Bool :=
  keepProject t r.projectRef && statusLower t r != "not applicable"

/-- The aggregated record of one surviving project: first occurrence of the
name/description/owner fields among its valid rows, the count of valid rows
as `Lines`, null hours, empty type and Core/OAB, and the warning comment
when the project is marked. -/
def studioAggregate (t : ProdTable) (valid : List ProdRow) (p : String) : StudioRow :=
  let rs := valid.filter fun r => r.projectRef == p
  { projectRef := p
    eventName := ((rs.head?).map fun r => r.eventName).getD ""
    projectDescription := ((rs.head?).map fun r => r.projectDescription).getD ""
    projectOwner := ((rs.head?).map fun r => r.projectOwner).getD ""
    lines := rs.length
    studioHours := none
    type := ""
    coreOrOab := ""
    studioComment := if commentProject t p then commentText else "" }

def prepare_studio_data (t : ProdTable) : List StudioRow :=
  if t.rows.isEmpty then []
  else
    let valid := t.rows.filter (validRow t)
    if valid.isEmpty then []
    else
      (dedupByAux id [] (valid.map fun r => r.projectRef)).map (studioAggregate t valid)

/-! ## Timesheet merge (Tab 2 block, lines 676-692)

The aggregated timesheet has one record per `Project Ref`, so the pandas
left merge is a per-row lookup.  The column updates stored back into the
session studio table are
`Studio Hours := Total Hours fillna Studio Hours`,
`Type := Type_timesheet fillna Type, then replace('', 'Artwork')`,
`Core/OAB := Core/OAB_timesheet fillna Core/OAB, then replace('', 'CORE')`. -/

structure TsRecord where
  projectRef : String
  totalHours : ℚ
  type : String
  coreOrOab : String
deriving DecidableEq

def mergeTimesheet (studio : List StudioRow) (ts : List TsRecord) : List StudioRow :=
  studio.map fun s =>
    match ts.find? fun tr => tr.projectRef == s.projectRef with
    | some tr =>
      { s with
        studioHours := some tr.totalHours
        type := if tr.type = "" then "Artwork" else tr.type
        coreOrOab := if tr.coreOrOab = "" then "CORE" else tr.coreOrOab }
    | none =>
      { s with
        type := if s.type = "" then "Artwork" else s.type
        coreOrOab := if s.coreOrOab = "" then "CORE" else s.coreOrOab }

/-! ## Cost preview (Tab 5 block, lines 828-874) -/

/-- The studio rate map with its `fillna(49.5)` default for unmapped types. -/
def rateOf (ty : String) : ℚ :=
  if ty = "Artwork" then 49.5
  else if ty = "Creative Artwork" then 57
  else if ty = "Digital" then 49.5
  else 49.5

/-- `Studio Cost`: numeric-coerced hours (null becomes 0) times the rate. -/
def studioCost (s : StudioRow) : ℚ := (s.studioHours.getD 0) * rateOf s.type

/-- `Total Cost` of a print row: sell price times total including spares,
nulls coerced to 0. -/
def printCost (p : ProdRow) : ℚ :=
  (p.productionSellPrice.getD 0) * (p.totalIncludingSpares.getD 0)

/-- Core/OAB classification of a print row: looked up from the studio table
by `Project Ref` (the source builds a dict from the table, so the last
studio row with a given ref wins), defaulting to `CORE` for unmatched
refs. -/
def lookupCoreOab (studio : List StudioRow) (p : ProdRow) : String :=
  match studio.reverse.find? fun s => s.projectRef == p.projectRef with
  | some s => s.coreOrOab
  | none => "CORE"

def studioCore (studio : List StudioRow) : ℚ :=
  ((studio.filter fun s => s.coreOrOab == "CORE").map studioCost).sum

def studioOab (studio : List StudioRow) : ℚ :=
  ((studio.filter fun s => s.coreOrOab == "OAB").map studioCost).sum

def printCore (studio : List StudioRow) (prints : List ProdRow) : ℚ :=
  ((prints.filter fun p => lookupCoreOab studio p == "CORE").map printCost).sum

def printOab (studio : List StudioRow) (prints : List ProdRow) : ℚ :=
  ((prints.filter fun p => lookupCoreOab studio p == "OAB").map printCost).sum

/-- The grand total of the cost preview, exactly as summed by the source. -/
def grandTotal (studio : List StudioRow) (prints : List ProdRow) : ℚ :=
  studioCore studio + studioOab studio + printCore studio prints + printOab studio prints

/-! ## generate_invoice: output naming (lines 511-525) -/

def xlsmMime : String := "application/vnd.ms-excel.sheet.macroEnabled.12"

def xlsxMime : String :=
  "application/vnd.openxmlformats-officedocument.spreadsheetml.sheet"

/-- The single output document descriptor a generation run produces. -/
structure InvoiceOutput where
  downloadName : String
  mimeType : String
deriving DecidableEq

/-- Output naming of `generate_invoice`: the extension follows the macro
flag of the loaded template, the download filename is built from the event
code and the `YYYYMMDD` date string, and the MIME type follows the
extension. -/
def generate_invoice_output (eventCode dateStr : String) (hasMacros : Bool) :
    InvoiceOutput :=
  let extension := if hasMacros then ".xlsm" else ".xlsx"
  { downloadName := eventCode ++ "_Superdrug_ITG_Invoice_" ++ dateStr ++ extension
    mimeType := if extension == ".xlsm" then xlsmMime else xlsxMime }

/-! ## Concrete tables used to evaluate the definitions -/

/-- A production line item with the given ref, brief ref and status and
fixed values for the never-aggregated fields. -/
def mkRow (p b st : String) : ProdRow :=
  { projectRef := p
    eventName := "Event 10 2025"
    projectDescription := "Desc"
    projectOwner := "Owner"
    briefRef := b
    contentBriefStatus := st
    productionSupplierBriefStatus := ""
    productionSellPrice := none
    totalIncludingSpares := none }

/-- A project whose line items are one completed and one not-applicable
line. -/
def tCompletedNA : ProdTable :=
  { hasStatusCol := true
    rows := [mkRow "SDG1" "BR1" "Completed", mkRow "SDG1" "BR2" "Not Applicable"] }

/-- A project with a single in-progress line. -/
def tInProgress : ProdTable :=
  { hasStatusCol := true
    rows := [mkRow "SDG7" "BR1" "In Progress"] }

/-- The studio record `prepare_studio_data` produces for `tInProgress`. -/
def rowInProgress : StudioRow :=
  { projectRef := "SDG7"
    eventName := "Event 10 2025"
    projectDescription := "Desc"
    projectOwner := "Owner"
    lines := 1
    studioHours := none
    type := ""
    coreOrOab := ""
    studioComment := commentText }

/-- A project whose line items are all `not applicable` up to case and
whitespace. -/
def tAllNA : ProdTable :=
  { hasStatusCol := true
    rows := [mkRow "SDG9" "BR1" "  Not Applicable ", mkRow "SDG9" "BR2" "NOT APPLICABLE"] }

/-- A freshly aggregated studio record with no timesheet match: null hours,
empty type and empty Core/OAB. -/
def studioNoMatch : StudioRow :=
  { projectRef := "SDG1"
    eventName := "Event 10 2025"
    projectDescription := "Desc"
    projectOwner := "Owner"
    lines := 1
    studioHours := none
    type := ""
    coreOrOab := ""
    studioComment := "" }

/-- A studio record whose Core/OAB field is neither CORE nor OAB. -/
def sNoCat : StudioRow :=
  { projectRef := "SDG5"
    eventName := "Event 10 2025"
    projectDescription := "Desc"
    projectOwner := "Owner"
    lines := 1
    studioHours := some 2
    type := "Artwork"
    coreOrOab := ""
    studioComment := "" }

/-- A file readable under no encoding: every attempt raises a decode
error. -/
def fAllDecode : Enc → ReadOutcome := fun _ => .decodeErr

/-- A file readable under no encoding, whose last attempt raises a
non-decode exception. -/
def fMixed : Enc → ReadOutcome := fun e =>
  match e with
  | .cp1252 => .otherErr
  | _ => .decodeErr

/-! ## Theorems -/

/-- C4: for every hours value h ≥ 0, `round_up_to_quarter h` is the smallest
multiple of 0.25 that is greater than or equal to h, and
`round_up_to_quarter 0 = 0`. -/
theorem round_up_to_quarter_least (h : ℚ) (hh : 0 ≤ h) :
    (∃ k : ℤ, round_up_to_quarter h = (k : ℚ) / 4) ∧
    h ≤ round_up_to_quarter h ∧
    (∀ m : ℚ, (∃ k : ℤ, m = (k : ℚ) / 4) → h ≤ m → round_up_to_quarter h ≤ m) ∧
    round_up_to_quarter 0 = 0 := by
  have h4 : (0 : ℚ) < 4 := by norm_num
  have hzero : round_up_to_quarter 0 = 0 := by simp [round_up_to_quarter]
  by_cases hz : h = 0
  · subst hz
    refine ⟨⟨0, by simp [hzero]⟩, le_of_eq hzero.symm, ?_, hzero⟩
    intro m hk hm
    rw [hzero]
    exact hm
  · have hr : round_up_to_quarter h = (⌈h * 4⌉ : ℚ) / 4 := by
      simp [round_up_to_quarter, hz]
    refine ⟨⟨⌈h * 4⌉, hr⟩, ?_, ?_, hzero⟩
    · rw [hr, le_div_iff₀ h4]
      exact Int.le_ceil (h * 4)
    · rintro m ⟨k, rfl⟩ hm
      rw [hr]
      have hk4 : h * 4 ≤ (k : ℚ) := (le_div_iff₀ h4).mp hm
      have hck : ⌈h * 4⌉ ≤ k := Int.ceil_le.mpr hk4
      have hcast : ((⌈h * 4⌉ : ℤ) : ℚ) ≤ (k : ℚ) := by exact_mod_cast hck
      linarith

/-- Witness for C4 at h = 3/10 (rounded up to 1/2). -/
theorem round_up_to_quarter_least_witness :
    0 ≤ (3 : ℚ) / 10 ∧
    ((∃ k : ℤ, round_up_to_quarter ((3 : ℚ) / 10) = (k : ℚ) / 4) ∧
      (3 : ℚ) / 10 ≤ round_up_to_quarter ((3 : ℚ) / 10) ∧
      (∀ m : ℚ, (∃ k : ℤ, m = (k : ℚ) / 4) → (3 : ℚ) / 10 ≤ m →
        round_up_to_quarter ((3 : ℚ) / 10) ≤ m) ∧
      round_up_to_quarter 0 = 0) :=
  ⟨by norm_num, round_up_to_quarter_least ((3 : ℚ) / 10) (by norm_num)⟩

/-- C7: the type classification of a timesheet group from its modal charge
code is Creative Artwork when the lowered code contains "creative",
otherwise Digital when it contains "digital" or "tec", otherwise Artwork,
and Artwork when the charge code is missing. -/
theorem determine_type_spec :
    (∀ cc : String, containsSubstring (pyLower cc) "creative" = true →
        determine_type (some cc) = "Creative Artwork") ∧
    (∀ cc : String, containsSubstring (pyLower cc) "creative" = false →
        (containsSubstring (pyLower cc) "digital" || containsSubstring (pyLower cc) "tec") = true →
        determine_type (some cc) = "Digital") ∧
    (∀ cc : String, containsSubstring (pyLower cc) "creative" = false →
        containsSubstring (pyLower cc) "digital" = false →
        containsSubstring (pyLower cc) "tec" = false →
        determine_type (some cc) = "Artwork") ∧
    determine_type none = "Artwork" := by
  refine ⟨?_, ?_, ?_, rfl⟩
  · intro cc hcr
    simp [determine_type, hcr]
  · intro cc hcr hdt
    simp [determine_type, hcr, hdt]
  · intro cc hcr hd ht
    simp [determine_type, hcr, hd, ht]

/-- Witness for C7 on one charge code of each class and a missing code. -/
theorem determine_type_spec_witness :
    determine_type (some "Creative Retouch") = "Creative Artwork" ∧
    determine_type (some "Digital Build") = "Digital" ∧
    determine_type (some "General AW") = "Artwork" ∧
    determine_type none = "Artwork" :=
  ⟨determine_type_spec.1 "Creative Retouch" (by decide),
   determine_type_spec.2.1 "Digital Build" (by decide) (by decide),
   determine_type_spec.2.2.1 "General AW" (by decide) (by decide) (by decide),
   determine_type_spec.2.2.2⟩

/-- C9 fails as stated: the generated download filename is
`<event_code>_Superdrug_ITG_Invoice_<YYYYMMDD>.<ext>`, not
`<event_code>_Invoice_<YYYYMMDD>.<ext>`. -/
theorem generate_invoice_output_counterexample :
    (generate_invoice_output "E1025" "20251012" true).downloadName
        = "E1025_Superdrug_ITG_Invoice_20251012.xlsm" ∧
    (generate_invoice_output "E1025" "20251012" true).downloadName
        ≠ "E1025" ++ "_Invoice_" ++ "20251012" ++ ".xlsm" := by
  constructor
  · rfl
  · decide

/-- C9 (amended): every generation run produces one output document whose
filename is `<event_code>_Superdrug_ITG_Invoice_<YYYYMMDD>.<ext>` with ext
xlsm when the loaded template carried macros and xlsx otherwise, and whose
MIME type is the macro-enabled Excel type for xlsm and the OpenXML
spreadsheet type for xlsx. -/
theorem generate_invoice_output_spec (eventCode dateStr : String) (hasMacros : Bool) :
    (generate_invoice_output eventCode dateStr hasMacros).downloadName
        = eventCode ++ "_Superdrug_ITG_Invoice_" ++ dateStr
            ++ (if hasMacros then ".xlsm" else ".xlsx") ∧
    (generate_invoice_output eventCode dateStr hasMacros).mimeType
        = (if hasMacros then xlsmMime else xlsxMime) := by
  cases hasMacros <;> exact ⟨rfl, rfl⟩

/-- Auxiliary: when every encoding attempt fails, the read loop produces no
frame. -/
theorem readLoop_none_of_fail (f : Enc → ReadOutcome) :
    ∀ (es : List Enc) (last : Option ErrKind),
      (∀ e ∈ es, isOkOutcome (f e) = false) → (readLoop f es last).1 = none := by
  intro es
  induction es with
  | nil => intro last h; rfl
  | cons e rest ih =>
    intro last h
    have he := h e (by simp)
    cases hf : f e with
    | ok t => simp [isOkOutcome, hf] at he
    | decodeErr =>
      simp only [readLoop, hf]
      exact ih _ fun x hx => h x (by simp [hx])
    | otherErr => simp [readLoop, hf]

/-- C5 fails as stated: on a file none of whose encoding attempts yields a
readable table, the reported error need not be the decoding error — when
the last attempt raises a non-decode exception the generic read error is
reported instead. -/
theorem processTimesheetRead_counterexample :
    (∀ e ∈ encodings, isOkOutcome (fMixed e) = false) ∧
    processTimesheetRead fMixed = .errorEmpty .genericMsg ∧
    ReportKind.genericMsg ≠ ReportKind.decodeMsg := by
  refine ⟨by decide, rfl, by decide⟩

/-- C5 (amended): if every fallback encoding attempt fails with a decode
error, `process_timesheet` reports the decoding error and returns an empty
result; and for every file on which no encoding yields a readable table it
reports some error and returns an empty result — it returns normally, so
no read failure escapes its boundary. -/
theorem processTimesheetRead_spec (f : Enc → ReadOutcome) :
    ((∀ e ∈ encodings, f e = .decodeErr) →
        processTimesheetRead f = .errorEmpty .decodeMsg) ∧
    ((∀ e ∈ encodings, isOkOutcome (f e) = false) →
        ∃ k, processTimesheetRead f = .errorEmpty k) := by
  constructor
  · intro h
    have h1 := h .utf8sig (by simp [encodings])
    have h2 := h .utf16 (by simp [encodings])
    have h3 := h .latin1 (by simp [encodings])
    have h4 := h .cp1252 (by simp [encodings])
    simp [processTimesheetRead, encodings, readLoop, h1, h2, h3, h4]
  · intro h
    have hn := readLoop_none_of_fail f encodings none h
    unfold processTimesheetRead
    rcases hr : readLoop f encodings none with ⟨o1, o2⟩
    rw [hr] at hn
    simp only at hn
    subst hn
    cases o2 with
    | none => exact ⟨.unknownMsg, rfl⟩
    | some k =>
      cases k with
      | decode => exact ⟨.decodeMsg, rfl⟩
      | other => exact ⟨.genericMsg, rfl⟩

/-- Witness for C5 on a file whose every encoding attempt decode-fails. -/
theorem processTimesheetRead_spec_witness :
    (∀ e ∈ encodings, fAllDecode e = .decodeErr) ∧
    processTimesheetRead fAllDecode = .errorEmpty .decodeMsg ∧
    ∃ k, processTimesheetRead fAllDecode = .errorEmpty k :=
  ⟨by decide, (processTimesheetRead_spec fAllDecode).1 (by decide),
    (processTimesheetRead_spec fAllDecode).2 (by decide)⟩

/-- C3 fails as stated: after the timesheet merge, an unmatched studio
project does retain null Studio Hours, but the defaults are written into
the stored record — its stored Type becomes "Artwork" and its stored
Core/OAB becomes "CORE" rather than staying empty strings. -/
theorem mergeTimesheet_counterexample :
    (mergeTimesheet [studioNoMatch] []).map (fun r => (r.studioHours, r.type, r.coreOrOab))
        = [(none, "Artwork", "CORE")] ∧
    ("Artwork" : String) ≠ "" ∧ ("CORE" : String) ≠ "" := by
  refine ⟨rfl, by decide, by decide⟩

/-- C3 (amended): after the timesheet merge, every studio project with no
matching timesheet record retains its stored Studio Hours (null stays
null), and the merge writes the defaults into the stored record: an empty
Type becomes "Artwork" and an empty Core/OAB becomes "CORE" (non-empty
values are kept). -/
theorem mergeTimesheet_unmatched (studio : List StudioRow) (ts : List TsRecord)
    (s : StudioRow) (hmem : s ∈ studio)
    (hnm : ts.find? (fun tr => tr.projectRef == s.projectRef) = none) :
    ∃ r ∈ mergeTimesheet studio ts,
      r.projectRef = s.projectRef ∧ r.studioHours = s.studioHours ∧
      r.type = (if s.type = "" then "Artwork" else s.type) ∧
      r.coreOrOab = (if s.coreOrOab = "" then "CORE" else s.coreOrOab) := by
  refine ⟨_, List.mem_map_of_mem _ hmem, ?_⟩
  simp [hnm]

/-- Witness for C3 (amended) on a one-project studio table with an empty
timesheet. -/
theorem mergeTimesheet_unmatched_witness :
    ∃ r ∈ mergeTimesheet [studioNoMatch] [],
      r.projectRef = studioNoMatch.projectRef ∧
      r.studioHours = studioNoMatch.studioHours ∧
      r.type = (if studioNoMatch.type = "" then "Artwork" else studioNoMatch.type) ∧
      r.coreOrOab = (if studioNoMatch.coreOrOab = "" then "CORE" else studioNoMatch.coreOrOab) :=
  mergeTimesheet_unmatched [studioNoMatch] [] studioNoMatch (by decide) rfl

/-- C10: a studio row whose Core/OAB value is neither "CORE" nor "OAB"
contributes its studio cost to neither the CORE nor the OAB studio total,
so it is silently excluded from the grand total, which is the sum of the
CORE and OAB totals only. -/
theorem cost_totals_exclude_unclassified (l1 l2 : List StudioRow) (s : StudioRow)
    (prints : List ProdRow) (hc : s.coreOrOab ≠ "CORE") (ho : s.coreOrOab ≠ "OAB") :
    studioCore (l1 ++ s :: l2) = studioCore (l1 ++ l2) ∧
    studioOab (l1 ++ s :: l2) = studioOab (l1 ++ l2) ∧
    grandTotal (l1 ++ s :: l2) prints =
      studioCore (l1 ++ l2) + studioOab (l1 ++ l2)
        + printCore (l1 ++ s :: l2) prints + printOab (l1 ++ s :: l2) prints ∧
    grandTotal (l1 ++ s :: l2) prints =
      (studioCore (l1 ++ s :: l2) + printCore (l1 ++ s :: l2) prints)
        + (studioOab (l1 ++ s :: l2) + printOab (l1 ++ s :: l2) prints) := by
  have hc' : (s.coreOrOab == "CORE") = false := by
    rw [beq_eq_false_iff_ne]
    exact hc
  have ho' : (s.coreOrOab == "OAB") = false := by
    rw [beq_eq_false_iff_ne]
    exact ho
  have h1 : studioCore (l1 ++ s :: l2) = studioCore (l1 ++ l2) := by
    simp [studioCore, List.filter_append, List.filter_cons, hc']
  have h2 : studioOab (l1 ++ s :: l2) = studioOab (l1 ++ l2) := by
    simp [studioOab, List.filter_append, List.filter_cons, ho']
  refine ⟨h1, h2, ?_, ?_⟩
  · rw [grandTotal, h1, h2]
  · rw [grandTotal]
    ring

/-- Witness for C10 on a one-row studio table whose row has an empty
Core/OAB value. -/
theorem cost_totals_exclude_unclassified_witness :
    sNoCat.coreOrOab ≠ "CORE" ∧ sNoCat.coreOrOab ≠ "OAB" ∧
    (studioCore ([] ++ sNoCat :: []) = studioCore ([] ++ []) ∧
      studioOab ([] ++ sNoCat :: []) = studioOab ([] ++ []) ∧
      grandTotal ([] ++ sNoCat :: []) [] =
        studioCore ([] ++ []) + studioOab ([] ++ [])
          + printCore ([] ++ sNoCat :: []) [] + printOab ([] ++ sNoCat :: []) [] ∧
      grandTotal ([] ++ sNoCat :: []) [] =
        (studioCore ([] ++ sNoCat :: []) + printCore ([] ++ sNoCat :: []) [])
          + (studioOab ([] ++ sNoCat :: []) + printOab ([] ++ sNoCat :: []) [])) :=
  ⟨by decide, by decide,
    cost_totals_exclude_unclassified [] [] sNoCat [] (by decide) (by decide)⟩

/-! ### Deduplication lemmas -/

/-- The stable dedup returns a sublist of its input (rows are kept verbatim
and in order, never merged). -/
theorem dedupByAux_sublist {α : Type} (key : α → String) :
    ∀ (l : List α) (seen : List String), List.Sublist (dedupByAux key seen l) l := by
  intro l
  induction l with
  | nil => intro seen; simp [dedupByAux]
  | cons r rs ih =>
    intro seen
    by_cases h : key r ∈ seen
    · simp only [dedupByAux]
      rw [if_pos h]
      exact List.Sublist.cons r (ih seen)
    · simp only [dedupByAux]
      rw [if_neg h]
      exact List.Sublist.cons₂ r (ih (key r :: seen))

/-- Membership in the string dedup: exactly the unseen input elements. -/
theorem mem_dedupStr (b : String) :
    ∀ (l seen : List String), b ∈ dedupByAux id seen l ↔ b ∉ seen ∧ b ∈ l := by
  intro l
  induction l with
  | nil => intro seen; simp [dedupByAux]
  | cons x xs ih =>
    intro seen
    by_cases hx : x ∈ seen
    · simp only [dedupByAux, id]
      rw [if_pos hx, ih]
      constructor
      · rintro ⟨hns, hxs⟩
        exact ⟨hns, List.mem_cons_of_mem _ hxs⟩
      · rintro ⟨hns, hmem⟩
        rcases List.mem_cons.mp hmem with rfl | hxs
        · exact absurd hx hns
        · exact ⟨hns, hxs⟩
    · simp only [dedupByAux, id]
      rw [if_neg hx, List.mem_cons, ih]
      constructor
      · rintro (rfl | ⟨hns, hxs⟩)
        · exact ⟨hx, List.mem_cons_self _ _⟩
        · refine ⟨fun hs => hns (List.mem_cons_of_mem _ hs), List.mem_cons_of_mem _ hxs⟩
      · rintro ⟨hns, hmem⟩
        rcases List.mem_cons.mp hmem with rfl | hxs
        · exact Or.inl rfl
        · by_cases hbx : b = x
          · exact Or.inl hbx
          · refine Or.inr ⟨?_, hxs⟩
            intro hmem'
            rcases List.mem_cons.mp hmem' with h1 | h2
            · exact hbx h1
            · exact hns h2

/-- The keys of the dedup are free of duplicates and of already-seen keys. -/
theorem nodup_key_dedupByAux {α : Type} (key : α → String) :
    ∀ (l : List α) (seen : List String),
      ((dedupByAux key seen l).map key).Nodup ∧
        ∀ b ∈ (dedupByAux key seen l).map key, b ∉ seen := by
  intro l
  induction l with
  | nil => intro seen; simp [dedupByAux]
  | cons r rs ih =>
    intro seen
    by_cases h : key r ∈ seen
    · simp only [dedupByAux]
      rw [if_pos h]
      exact ih seen
    · simp only [dedupByAux]
      rw [if_neg h]
      rcases ih (key r :: seen) with ⟨hnd, hfree⟩
      refine ⟨?_, ?_⟩
      · simp only [List.map_cons, List.nodup_cons]
        refine ⟨?_, hnd⟩
        intro hmem
        exact (hfree _ hmem) (List.mem_cons_self _ _)
      · intro b hb
        simp only [List.map_cons, List.mem_cons] at hb
        rcases hb with rfl | hb
        · exact h
        · intro hs
          exact (hfree _ hb) (List.mem_cons_of_mem _ hs)

/-- The dedup preserves the first match of any key predicate on an unseen
key. -/
theorem find?_dedupByAux {α : Type} (key : α → String) (b : String) :
    ∀ (l : List α) (seen : List String), b ∉ seen →
      (dedupByAux key seen l).find? (fun r => key r == b)
        = l.find? (fun r => key r == b) := by
  intro l
  induction l with
  | nil => intro seen hb; rfl
  | cons r rs ih =>
    intro seen hb
    by_cases h : key r ∈ seen
    · simp only [dedupByAux]
      rw [if_pos h]
      have hne : (key r == b) = false := by
        rw [beq_eq_false_iff_ne]
        intro he
        exact hb (he ▸ h)
      rw [@List.find?_cons_of_neg _ (fun x => key x == b) r rs (by simp [hne]),
        ih seen hb]
    · simp only [dedupByAux]
      rw [if_neg h]
      by_cases hrb : key r = b
      · have hp : (key r == b) = true := by simp [hrb]
        rw [@List.find?_cons_of_pos _ (fun x => key x == b) r
              (dedupByAux key (key r :: seen) rs) hp,
          @List.find?_cons_of_pos _ (fun x => key x == b) r rs hp]
      · have hp : (key r == b) = false := by
          rw [beq_eq_false_iff_ne]
          exact hrb
        rw [@List.find?_cons_of_neg _ (fun x => key x == b) r
              (dedupByAux key (key r :: seen) rs) (by simp [hp]),
          @List.find?_cons_of_neg _ (fun x => key x == b) r rs (by simp [hp])]
        refine ih (key r :: seen) ?_
        intro hmem
        rcases List.mem_cons.mp hmem with h1 | h2
        · exact hrb h1.symm
        · exact hb h2

/-! ### C6: production combiner -/

/-- C6: `load_production_files` keeps a duplicate-free-by-Brief-Ref,
order-preserving selection of the concatenated rows, and for every Brief
Ref the retained row is exactly the first occurrence across the
concatenation; rows are kept verbatim, never merged. -/
theorem load_production_files_spec (files : List (List ProdRow)) :
    List.Sublist (load_production_files files) files.flatten ∧
    ((load_production_files files).map (fun r => r.briefRef)).Nodup ∧
    (∀ b : String,
      (load_production_files files).find? (fun r => r.briefRef == b)
        = files.flatten.find? (fun r => r.briefRef == b)) := by
  refine ⟨dedupByAux_sublist _ _ _, (nodup_key_dedupByAux _ _ _).1, ?_⟩
  intro b
  exact find?_dedupByAux (fun r => r.briefRef) b files.flatten [] (by simp)

/-! ### C1 and C2: the studio aggregator -/

/-- Guard-free form of `prepare_studio_data`: both emptiness guards are
subsumed by the aggregation over an empty valid-row list. -/
theorem prepare_studio_data_eq (t : ProdTable) :
    prepare_studio_data t =
      (dedupByAux id [] ((t.rows.filter (validRow t)).map fun r => r.projectRef)).map
        (studioAggregate t (t.rows.filter (validRow t))) := by
  unfold prepare_studio_data
  cases hx : t.rows with
  | nil => simp [dedupByAux]
  | cons a as =>
    simp only [List.isEmpty_cons, Bool.false_eq_true, if_false]
    by_cases h2 : ((a :: as).filter (validRow t)).isEmpty = true
    · have h0 : (a :: as).filter (validRow t) = [] := List.isEmpty_iff.mp h2
      simp [h2, h0, dedupByAux]
    · simp [h2]

/-- A row of the table whose status is not `not applicable` certifies that
its project is kept. -/
theorem keepProject_true_of_witness (t : ProdTable) (r : ProdRow)
    (hr : r ∈ t.rows) (hst : statusLower t r ≠ "not applicable") :
    keepProject t r.projectRef = true := by
  have hmem : statusLower t r ∈ projStatuses t r.projectRef := by
    simp only [projStatuses, List.mem_map]
    exact ⟨r, List.mem_filter.mpr ⟨hr, by simp⟩, rfl⟩
  have hall : (projStatuses t r.projectRef).all (fun s => s == "not applicable") = false := by
    cases hA : (projStatuses t r.projectRef).all (fun s => s == "not applicable") with
    | false => rfl
    | true =>
      exfalso
      have h2 := List.all_eq_true.mp hA _ hmem
      exact hst (by simpa using h2)
  have hne : (projStatuses t r.projectRef).isEmpty = false := by
    cases hE : projStatuses t r.projectRef with
    | nil =>
      rw [hE] at hmem
      simp at hmem
    | cons a as => rfl
  unfold keepProject
  simp [hne, hall]

/-- A project ref occurs in the aggregated output exactly when some line
item of that project has a status other than `not applicable`. -/
theorem exists_output_ref_iff (t : ProdTable) (p : String) :
    (∃ row ∈ prepare_studio_data t, row.projectRef = p) ↔
      ∃ r ∈ t.rows, r.projectRef = p ∧ statusLower t r ≠ "not applicable" := by
  rw [prepare_studio_data_eq]
  constructor
  · rintro ⟨row, hrow, hrp⟩
    rcases List.mem_map.mp hrow with ⟨q, hq, rfl⟩
    have hqp : q = p := hrp
    subst hqp
    have hkeys := ((mem_dedupStr q _ _).mp hq).2
    rcases List.mem_map.mp hkeys with ⟨r, hrv, hrefl⟩
    rcases List.mem_filter.mp hrv with ⟨hrrows, hvalid⟩
    refine ⟨r, hrrows, hrefl, ?_⟩
    rw [validRow, Bool.and_eq_true] at hvalid
    exact bne_iff_ne.mp hvalid.2
  · rintro ⟨r, hr, hrp, hst⟩
    have hkeep := keepProject_true_of_witness t r hr hst
    have hvalid : validRow t r = true := by
      rw [validRow, hkeep, Bool.true_and]
      exact bne_iff_ne.mpr hst
    refine ⟨studioAggregate t (t.rows.filter (validRow t)) p, ?_, rfl⟩
    apply List.mem_map_of_mem
    apply (mem_dedupStr p _ _).mpr
    refine ⟨by simp, ?_⟩
    exact List.mem_map.mpr ⟨r, List.mem_filter.mpr ⟨hr, hvalid⟩, hrp⟩

/-- C1: a project ref is entirely absent from the output of
`prepare_studio_data` if and only if every one of its line items has
normalised Content Brief Status equal to `not applicable` (an absent
status column reads as the empty string, so such projects are never
excluded). -/
theorem prepare_studio_exclusion (t : ProdTable) (p : String) :
    (∀ row ∈ prepare_studio_data t, row.projectRef ≠ p) ↔
      (∀ r ∈ t.rows, r.projectRef = p → statusLower t r = "not applicable") := by
  have h := exists_output_ref_iff t p
  constructor
  · intro hall r hr hp
    by_contra hne
    rcases h.mpr ⟨r, hr, hp, hne⟩ with ⟨row, hrow, hrp⟩
    exact hall row hrow hrp
  · intro hall row hrow hrp
    rcases h.mp ⟨row, hrow, hrp⟩ with ⟨r, hr, hp, hne⟩
    exact hne (hall r hr hp)

/-- Witness for C1 on a project whose two lines are `not applicable` up to
case and whitespace: every line normalises to `not applicable` and the
project is absent from the output. -/
theorem prepare_studio_exclusion_witness :
    (∀ r ∈ tAllNA.rows, r.projectRef = "SDG9" → statusLower tAllNA r = "not applicable") ∧
    (∀ row ∈ prepare_studio_data tAllNA, row.projectRef ≠ "SDG9") :=
  ⟨by decide, (prepare_studio_exclusion tAllNA "SDG9").mpr (by decide)⟩

/-- Each output row carries the comment decision of its own project, and
its project has at least one line item in the table. -/
theorem mem_output_comment (t : ProdTable) (row : StudioRow)
    (h : row ∈ prepare_studio_data t) :
    row.studioComment = (if commentProject t row.projectRef then commentText else "") ∧
    ∃ r ∈ t.rows, r.projectRef = row.projectRef := by
  rw [prepare_studio_data_eq] at h
  rcases List.mem_map.mp h with ⟨q, hq, rfl⟩
  refine ⟨rfl, ?_⟩
  have hkeys := ((mem_dedupStr q _ _).mp hq).2
  rcases List.mem_map.mp hkeys with ⟨r, hrv, hrq⟩
  rcases List.mem_filter.mp hrv with ⟨hrrows, _⟩
  exact ⟨r, hrrows, hrq⟩

/-- The comment flag of a project with at least one status holds exactly
when some status in its full status list differs from `completed`. -/
theorem commentProject_iff (t : ProdTable) (p : String)
    (hne : projStatuses t p ≠ []) :
    commentProject t p = true ↔ ∃ s ∈ projStatuses t p, s ≠ "completed" := by
  have hE : (projStatuses t p).isEmpty = false := by
    cases hx : projStatuses t p with
    | nil => exact absurd hx hne
    | cons a as => rfl
  unfold commentProject
  simp [hE, List.any_eq_true]

/-- C2 fails as stated: the project of `tCompletedNA` has line statuses
[completed, not applicable], so all its non-`not applicable` line items are
`completed` and the status list is non-empty — the claim predicts an empty
Studio Comment — yet the output row carries the non-empty warning comment,
because the source tests the full status list including the
`not applicable` entries. -/
theorem prepare_studio_comment_counterexample :
    ((prepare_studio_data tCompletedNA).map fun r => (r.projectRef, r.studioComment))
        = [("SDG1", commentText)] ∧
    commentText ≠ "" ∧
    projStatuses tCompletedNA "SDG1" = ["completed", "not applicable"] ∧
    (projStatuses tCompletedNA "SDG1").filter (fun s => s != "not applicable")
        = ["completed"] := by
  refine ⟨by decide, by decide, by decide, by decide⟩

/-- C2 (amended): for every project kept by `prepare_studio_data`, its
Studio Comment is the fixed warning string iff the project has zero line
items with a recognised status, or at least one line item among all its
line items — including the `not applicable` ones — has a normalised status
other than `completed`; otherwise the comment is empty. -/
theorem prepare_studio_comment_spec (t : ProdTable) (row : StudioRow)
    (hrow : row ∈ prepare_studio_data t) :
    (row.studioComment = commentText ↔
      (projStatuses t row.projectRef = [] ∨
        ∃ s ∈ projStatuses t row.projectRef, s ≠ "completed")) ∧
    (row.studioComment = commentText ∨ row.studioComment = "") := by
  rcases mem_output_comment t row hrow with ⟨hcomment, r, hr, hrp⟩
  have hne : projStatuses t row.projectRef ≠ [] := by
    intro h0
    have hmem : statusLower t r ∈ projStatuses t row.projectRef := by
      simp only [projStatuses, List.mem_map]
      exact ⟨r, List.mem_filter.mpr ⟨hr, by simp [hrp]⟩, rfl⟩
    rw [h0] at hmem
    simp at hmem
  constructor
  · rw [hcomment]
    by_cases hc : commentProject t row.projectRef = true
    · rw [if_pos hc]
      exact iff_of_true rfl (Or.inr ((commentProject_iff t _ hne).mp hc))
    · have hcf : commentProject t row.projectRef = false := by
        cases hx : commentProject t row.projectRef with
        | false => rfl
        | true => exact absurd hx hc
      rw [if_neg hc]
      refine iff_of_false ?_ ?_
      · intro h0
        exact (by decide : ("" : String) ≠ commentText) h0
      · rintro (h0 | hex)
        · exact hne h0
        · have hT := (commentProject_iff t _ hne).mpr hex
          rw [hcf] at hT
          exact absurd hT (by decide)
  · rw [hcomment]
    by_cases hc : commentProject t row.projectRef = true
    · exact Or.inl (by rw [if_pos hc])
    · exact Or.inr (by rw [if_neg hc])

/-- Witness for C2 (amended) on a kept project with one in-progress line:
its comment is the warning string and the characterisation holds. -/
theorem prepare_studio_comment_spec_witness :
    rowInProgress ∈ prepare_studio_data tInProgress ∧
    ((rowInProgress.studioComment = commentText ↔
      (projStatuses tInProgress rowInProgress.projectRef = [] ∨
        ∃ s ∈ projStatuses tInProgress rowInProgress.projectRef, s ≠ "completed")) ∧
    (rowInProgress.studioComment = commentText ∨ rowInProgress.studioComment = "")) :=
  ⟨by decide, prepare_studio_comment_spec tInProgress rowInProgress (by decide)⟩

/-! ### C8: the event-code regex search -/

/-- Whitespace characters are not digits. -/
theorem space_ne_digit (c : Char) (h : isSpaceChar c = true) : isDigitChar c = false := by
  unfold isSpaceChar at h
  simp only [Bool.or_eq_true, beq_iff_eq] at h
  rcases h with ((((rfl | rfl) | rfl) | rfl) | rfl) | rfl <;> decide

/-- Digit characters are not whitespace. -/
theorem digit_not_space (c : Char) (h : isDigitChar c = true) : isSpaceChar c = false := by
  cases hs : isSpaceChar c with
  | false => rfl
  | true =>
    rw [space_ne_digit c hs] at h
    exact Bool.noConfusion h

/-- Length of a slice whose right end is inside the list. -/
theorem slice_length (cs : List Char) (a b : Nat) (hb : b ≤ cs.length) (hab : a ≤ b) :
    (slice cs a b).length = b - a := by
  unfold slice
  rw [List.length_take, List.length_drop]
  omega

/-- Decomposition of a tail at a later index. -/
theorem drop_eq_slice_append (cs : List Char) (a b : Nat) (hab : a ≤ b) :
    cs.drop a = slice cs a b ++ cs.drop b := by
  unfold slice
  conv_lhs => rw [← List.take_append_drop (b - a) (cs.drop a)]
  rw [List.drop_drop]
  have hba : a + (b - a) = b := by omega
  rw [hba]

/-- A required run succeeds on a decomposed input: a non-empty run of `p`
characters followed by a remainder that starts with a non-`p` character. -/
theorem reqRun_eq (p : Char → Bool) (run rest : List Char) (hne : run ≠ [])
    (hall : ∀ c ∈ run, p c = true) (hstop : rest.takeWhile p = []) :
    reqRun p (run ++ rest) = some (run, rest) := by
  have ht : (run ++ rest).takeWhile p = run := by
    rw [List.takeWhile_append_of_pos hall, hstop, List.append_nil]
  have hd : (run ++ rest).dropWhile p = rest := by
    rw [List.dropWhile_append_of_pos hall]
    have h2 := List.takeWhile_append_dropWhile p rest
    rw [hstop, List.nil_append] at h2
    exact h2
  unfold reqRun
  rw [ht, hd, if_neg (by simp [hne])]

/-- Inversion of a successful required run. -/
theorem reqRun_some_inv (p : Char → Bool) (cs run rest : List Char)
    (h : reqRun p cs = some (run, rest)) :
    run = cs.takeWhile p ∧ rest = cs.dropWhile p ∧ run ≠ [] := by
  unfold reqRun at h
  by_cases hE : (cs.takeWhile p).isEmpty = true
  · rw [if_pos hE] at h
    cases h
  · rw [if_neg hE] at h
    injection h with h'
    rw [Prod.mk.injEq] at h'
    refine ⟨h'.1.symm, h'.2.symm, ?_⟩
    intro h0
    rw [h'.1.symm] at h0
    exact hE (List.isEmpty_iff.mpr h0)

/-- The empty list matches nothing. -/
theorem matchEventAt_nil : matchEventAt ([] : List Char) = none := by decide

/-- A match anywhere in the list makes the search succeed. -/
theorem searchEvent_isSome_of_match (cs : List Char) (i : Nat)
    (h : (matchEventAt (cs.drop i)).isSome = true) :
    (searchEvent cs).isSome = true := by
  induction cs generalizing i with
  | nil =>
    rw [List.drop_nil, matchEventAt_nil] at h
    cases h
  | cons c rest ih =>
    cases i with
    | zero =>
      rw [List.drop_zero] at h
      cases hm : matchEventAt (c :: rest) with
      | some g => simp [searchEvent, hm]
      | none =>
        rw [hm] at h
        cases h
    | succ i' =>
      have h' : (matchEventAt (rest.drop i')).isSome = true := by
        simpa using h
      cases hm : matchEventAt (c :: rest) with
      | some g => simp [searchEvent, hm]
      | none =>
        simp only [searchEvent, hm]
        exact ih i' h'

/-- A successful search is a match at some offset. -/
theorem searchEvent_some_exists (cs : List Char) :
    ∀ g, searchEvent cs = some g → ∃ i, matchEventAt (cs.drop i) = some g := by
  induction cs with
  | nil =>
    intro g h
    cases h
  | cons c rest ih =>
    intro g h
    simp only [searchEvent] at h
    cases hm : matchEventAt (c :: rest) with
    | some g' =>
      simp only [hm] at h
      refine ⟨0, ?_⟩
      rw [List.drop_zero, hm, h]
    | none =>
      simp only [hm] at h
      obtain ⟨i, hi⟩ := ih g h
      exact ⟨i + 1, by simpa using hi⟩

/-- The matcher succeeds on any input decomposed as the pattern prescribes,
capturing the digit run and the four-digit year. -/
theorem matchEventAt_build (ev sp1 num sp2 year rest : List Char)
    (hev : ev.map Char.toLower = ['e', 'v', 'e', 'n', 't'])
    (hsp1ne : sp1 ≠ []) (hsp1 : ∀ c ∈ sp1, isSpaceChar c = true)
    (hnumne : num ≠ []) (hnum : ∀ c ∈ num, isDigitChar c = true)
    (hsp2ne : sp2 ≠ []) (hsp2 : ∀ c ∈ sp2, isSpaceChar c = true)
    (hylen : year.length = 4) (hy : ∀ c ∈ year, isDigitChar c = true) :
    matchEventAt (ev ++ (sp1 ++ (num ++ (sp2 ++ (year ++ rest))))) = some (num, year) := by
  have hevlen : ev.length = 5 := by simpa using congrArg List.length hev
  have hyne : year ≠ [] := by
    intro h0
    rw [h0] at hylen
    cases hylen
  have hnum_stop : (num ++ (sp2 ++ (year ++ rest))).takeWhile isSpaceChar = [] := by
    obtain ⟨d, ds, rfl⟩ := List.exists_cons_of_ne_nil hnumne
    rw [List.cons_append]
    exact List.takeWhile_cons_of_neg (by simp [digit_not_space d (hnum d (by simp))])
  have hsp2_stop : (sp2 ++ (year ++ rest)).takeWhile isDigitChar = [] := by
    obtain ⟨d, ds, rfl⟩ := List.exists_cons_of_ne_nil hsp2ne
    rw [List.cons_append]
    exact List.takeWhile_cons_of_neg (by simp [space_ne_digit d (hsp2 d (by simp))])
  have hyear_stop : (year ++ rest).takeWhile isSpaceChar = [] := by
    obtain ⟨d, ds, rfl⟩ := List.exists_cons_of_ne_nil hyne
    rw [List.cons_append]
    exact List.takeWhile_cons_of_neg (by simp [digit_not_space d (hy d (by simp))])
  have hrun1 : reqRun isSpaceChar (sp1 ++ (num ++ (sp2 ++ (year ++ rest))))
      = some (sp1, num ++ (sp2 ++ (year ++ rest))) :=
    reqRun_eq _ _ _ hsp1ne hsp1 hnum_stop
  have hrun2 : reqRun isDigitChar (num ++ (sp2 ++ (year ++ rest)))
      = some (num, sp2 ++ (year ++ rest)) :=
    reqRun_eq _ _ _ hnumne hnum hsp2_stop
  have hrun3 : reqRun isSpaceChar (sp2 ++ (year ++ rest)) = some (sp2, year ++ rest) :=
    reqRun_eq _ _ _ hsp2ne hsp2 hyear_stop
  have htake5 : ((ev ++ (sp1 ++ (num ++ (sp2 ++ (year ++ rest))))).take 5) = ev :=
    List.take_left' hevlen
  have hdrop5 : ((ev ++ (sp1 ++ (num ++ (sp2 ++ (year ++ rest))))).drop 5)
      = sp1 ++ (num ++ (sp2 ++ (year ++ rest))) :=
    List.drop_left' hevlen
  have hyear_take : (year ++ rest).take 4 = year := List.take_left' hylen
  have hall : year.all isDigitChar = true := List.all_eq_true.mpr hy
  have hcond : ¬(((ev ++ (sp1 ++ (num ++ (sp2 ++ (year ++ rest))))).take 5).map Char.toLower
      ≠ ['e', 'v', 'e', 'n', 't']) := by
    rw [htake5, hev]
    exact fun hfalse => hfalse rfl
  unfold matchEventAt
  rw [if_neg hcond, hdrop5]
  simp only [hrun1, hrun2, hrun3]
  simp [hyear_take, hylen, hall]

/-- Inversion of a successful anchored match: the input decomposes as the
pattern prescribes and the captured groups are the digit run and the
four-digit year. -/
theorem matchEventAt_some_inv (v num year : List Char)
    (h : matchEventAt v = some (num, year)) :
    ∃ sp1 sp2 rest,
      v = v.take 5 ++ (sp1 ++ (num ++ (sp2 ++ (year ++ rest)))) ∧
      (v.take 5).map Char.toLower = ['e', 'v', 'e', 'n', 't'] ∧
      sp1 ≠ [] ∧ (∀ c ∈ sp1, isSpaceChar c = true) ∧
      num ≠ [] ∧ (∀ c ∈ num, isDigitChar c = true) ∧
      sp2 ≠ [] ∧ (∀ c ∈ sp2, isSpaceChar c = true) ∧
      year.length = 4 ∧ (∀ c ∈ year, isDigitChar c = true) := by
  unfold matchEventAt at h
  by_cases hev : (v.take 5).map Char.toLower ≠ ['e', 'v', 'e', 'n', 't']
  · rw [if_pos hev] at h
    cases h
  · rw [if_neg hev] at h
    push_neg at hev
    cases h1 : reqRun isSpaceChar (v.drop 5) with
    | none =>
      simp only [h1] at h
      cases h
    | some pr1 =>
      obtain ⟨sp1, rest2⟩ := pr1
      simp only [h1] at h
      cases h2 : reqRun isDigitChar rest2 with
      | none =>
        simp only [h2] at h
        cases h
      | some pr2 =>
        obtain ⟨num', rest3⟩ := pr2
        simp only [h2] at h
        cases h3 : reqRun isSpaceChar rest3 with
        | none =>
          simp only [h3] at h
          cases h
        | some pr3 =>
          obtain ⟨sp2, rest4⟩ := pr3
          simp only [h3] at h
          by_cases h4 : ((rest4.take 4).length == 4 && (rest4.take 4).all isDigitChar) = true
          · rw [if_pos h4] at h
            injection h with h5
            rw [Prod.mk.injEq] at h5
            obtain ⟨he1, he2⟩ := h5
            subst he1
            subst he2
            obtain ⟨hsp1eq, hrest2, hsp1ne⟩ := reqRun_some_inv _ _ _ _ h1
            obtain ⟨hnumeq, hrest3, hnumne⟩ := reqRun_some_inv _ _ _ _ h2
            obtain ⟨hsp2eq, hrest4, hsp2ne⟩ := reqRun_some_inv _ _ _ _ h3
            rw [Bool.and_eq_true, beq_iff_eq] at h4
            obtain ⟨hylen, hyall⟩ := h4
            refine ⟨sp1, sp2, rest4.drop 4, ?_, hev, hsp1ne, ?_, hnumne, ?_, hsp2ne, ?_,
              hylen, ?_⟩
            · conv_lhs => rw [← List.take_append_drop 5 v]
              congr 1
              rw [← List.takeWhile_append_dropWhile isSpaceChar (v.drop 5), ← hsp1eq, ← hrest2]
              congr 1
              rw [← List.takeWhile_append_dropWhile isDigitChar rest2, ← hnumeq, ← hrest3]
              congr 1
              rw [← List.takeWhile_append_dropWhile isSpaceChar rest3, ← hsp2eq, ← hrest4]
              congr 1
              exact (List.take_append_drop 4 rest4).symm
            · intro c hc
              rw [hsp1eq] at hc
              exact List.mem_takeWhile_imp hc
            · intro c hc
              rw [hnumeq] at hc
              exact List.mem_takeWhile_imp hc
            · intro c hc
              rw [hsp2eq] at hc
              exact List.mem_takeWhile_imp hc
            · exact List.all_eq_true.mp hyall
          · rw [if_neg h4] at h
            cases h

/-- Soundness of the spec-side pattern: whenever the decomposition exists,
the regex search succeeds. -/
theorem searchEvent_isSome_of_pattern (s : String) (h : eventPatternB s = true) :
    (searchEvent s.toList).isSome = true := by
  unfold eventPatternB at h
  simp only [List.any_eq_true, List.mem_range, Bool.and_eq_true, decide_eq_true_eq,
    beq_iff_eq, List.all_eq_true] at h
  obtain ⟨i, hi, hev, j, hj, k, hk, l, hl, hc⟩ := h
  obtain ⟨⟨⟨⟨⟨⟨⟨hij, hjk⟩, hkl⟩, hln⟩, hsp1⟩, hnum⟩, hsp2⟩, hyr⟩ := hc
  have hjle : j ≤ s.toList.length := by omega
  have hkle : k ≤ s.toList.length := by omega
  have hlle : l ≤ s.toList.length := by omega
  have hd0 := drop_eq_slice_append s.toList i (i + 5) (by omega)
  have hd1 := drop_eq_slice_append s.toList (i + 5) j (by omega)
  have hd2 := drop_eq_slice_append s.toList j k (by omega)
  have hd3 := drop_eq_slice_append s.toList k l (by omega)
  have hd4 := drop_eq_slice_append s.toList l (l + 4) (by omega)
  have hfull : s.toList.drop i
      = slice s.toList i (i + 5) ++ (slice s.toList (i + 5) j ++ (slice s.toList j k
          ++ (slice s.toList k l ++ (slice s.toList l (l + 4) ++ s.toList.drop (l + 4))))) := by
    rw [hd0, hd1, hd2, hd3, hd4]
  have hlen1 : (slice s.toList (i + 5) j).length = j - (i + 5) :=
    slice_length _ _ _ hjle (by omega)
  have hlen2 : (slice s.toList j k).length = k - j := slice_length _ _ _ hkle (by omega)
  have hlen3 : (slice s.toList k l).length = l - k := slice_length _ _ _ hlle (by omega)
  have hlen4 : (slice s.toList l (l + 4)).length = 4 := by
    rw [slice_length _ _ _ hln (by omega)]
    omega
  have hne1 : slice s.toList (i + 5) j ≠ [] := by
    intro h0
    rw [h0] at hlen1
    simp only [List.length_nil] at hlen1
    omega
  have hne2 : slice s.toList j k ≠ [] := by
    intro h0
    rw [h0] at hlen2
    simp only [List.length_nil] at hlen2
    omega
  have hne3 : slice s.toList k l ≠ [] := by
    intro h0
    rw [h0] at hlen3
    simp only [List.length_nil] at hlen3
    omega
  have hmatch : matchEventAt (s.toList.drop i)
      = some (slice s.toList j k, slice s.toList l (l + 4)) := by
    rw [hfull]
    exact matchEventAt_build _ _ _ _ _ _ hev hne1 hsp1 hne2 hnum hne3 hsp2 hlen4 hyr
  refine searchEvent_isSome_of_match s.toList i ?_
  rw [hmatch]
  rfl

/-- Completeness of the spec-side pattern: a successful anchored match at
any offset yields the decomposition. -/
theorem eventPatternB_of_match (s : String) (i : Nat) (num year : List Char)
    (h : matchEventAt (s.toList.drop i) = some (num, year)) :
    eventPatternB s = true := by
  obtain ⟨sp1, sp2, rest, hdecomp, hev, hsp1ne, hsp1, hnumne, hnum, hsp2ne, hsp2, hylen, hy⟩ :=
    matchEventAt_some_inv _ _ _ h
  have hev5 : ((s.toList.drop i).take 5).length = 5 := by
    simpa using congrArg List.length hev
  have hvlen : 5 ≤ (s.toList.drop i).length := by
    have h4 := List.length_take 5 (s.toList.drop i)
    rw [hev5] at h4
    rcases Nat.le_total 5 (s.toList.drop i).length with hle | hle
    · exact hle
    · rw [Nat.min_eq_right hle] at h4
      exact h4.le
  have hdlen := List.length_drop i s.toList
  have hi : i ≤ s.toList.length := by omega
  have hdrop5 : s.toList.drop (i + 5) = sp1 ++ (num ++ (sp2 ++ (year ++ rest))) := by
    calc s.toList.drop (i + 5) = (s.toList.drop i).drop 5 :=
          (List.drop_drop 5 i s.toList).symm
      _ = sp1 ++ (num ++ (sp2 ++ (year ++ rest))) := by
          conv_lhs => rw [hdecomp]
          exact List.drop_left' hev5
  have hdropj : s.toList.drop (i + 5 + sp1.length) = num ++ (sp2 ++ (year ++ rest)) := by
    calc s.toList.drop (i + 5 + sp1.length) = (s.toList.drop (i + 5)).drop sp1.length :=
          (List.drop_drop sp1.length (i + 5) s.toList).symm
      _ = num ++ (sp2 ++ (year ++ rest)) := by
          rw [hdrop5]
          exact List.drop_left sp1 _
  have hdropk : s.toList.drop (i + 5 + sp1.length + num.length)
      = sp2 ++ (year ++ rest) := by
    calc s.toList.drop (i + 5 + sp1.length + num.length)
        = (s.toList.drop (i + 5 + sp1.length)).drop num.length :=
          (List.drop_drop num.length (i + 5 + sp1.length) s.toList).symm
      _ = sp2 ++ (year ++ rest) := by
          rw [hdropj]
          exact List.drop_left num _
  have hdropl : s.toList.drop (i + 5 + sp1.length + num.length + sp2.length)
      = year ++ rest := by
    calc s.toList.drop (i + 5 + sp1.length + num.length + sp2.length)
        = (s.toList.drop (i + 5 + sp1.length + num.length)).drop sp2.length :=
          (List.drop_drop sp2.length (i + 5 + sp1.length + num.length) s.toList).symm
      _ = year ++ rest := by
          rw [hdropk]
          exact List.drop_left sp2 _
  have hslice0 : slice s.toList i (i + 5) = (s.toList.drop i).take 5 := by
    unfold slice
    congr 1
    omega
  have hslice1 : slice s.toList (i + 5) (i + 5 + sp1.length) = sp1 := by
    unfold slice
    have harith : i + 5 + sp1.length - (i + 5) = sp1.length := by omega
    rw [harith, hdrop5]
    exact List.take_left sp1 _
  have hslice2 : slice s.toList (i + 5 + sp1.length) (i + 5 + sp1.length + num.length)
      = num := by
    unfold slice
    have harith : i + 5 + sp1.length + num.length - (i + 5 + sp1.length) = num.length := by
      omega
    rw [harith, hdropj]
    exact List.take_left num _
  have hslice3 : slice s.toList (i + 5 + sp1.length + num.length)
      (i + 5 + sp1.length + num.length + sp2.length) = sp2 := by
    unfold slice
    have harith : i + 5 + sp1.length + num.length + sp2.length
        - (i + 5 + sp1.length + num.length) = sp2.length := by omega
    rw [harith, hdropk]
    exact List.take_left sp2 _
  have hslice4 : slice s.toList (i + 5 + sp1.length + num.length + sp2.length)
      (i + 5 + sp1.length + num.length + sp2.length + 4) = year := by
    unfold slice
    have harith : i + 5 + sp1.length + num.length + sp2.length + 4
        - (i + 5 + sp1.length + num.length + sp2.length) = 4 := by omega
    rw [harith, hdropl]
    exact List.take_left' hylen
  have hrestlen : s.toList.length - (i + 5 + sp1.length + num.length + sp2.length)
      = 4 + rest.length := by
    have hc := congrArg List.length hdropl
    rw [List.length_drop, List.length_append, hylen] at hc
    exact hc
  have hp1 : 0 < sp1.length := List.length_pos.mpr hsp1ne
  have hp2 : 0 < num.length := List.length_pos.mpr hnumne
  have hp3 : 0 < sp2.length := List.length_pos.mpr hsp2ne
  have hbound : i + 5 + sp1.length + num.length + sp2.length + 4 ≤ s.toList.length := by
    omega
  unfold eventPatternB
  simp only [List.any_eq_true, List.mem_range, Bool.and_eq_true, decide_eq_true_eq,
    beq_iff_eq, List.all_eq_true]
  refine ⟨i, by omega, ?_, i + 5 + sp1.length, by omega,
    i + 5 + sp1.length + num.length, by omega,
    i + 5 + sp1.length + num.length + sp2.length, by omega,
    ⟨⟨⟨⟨⟨⟨⟨by omega, by omega⟩, by omega⟩, by omega⟩, ?_⟩, ?_⟩, ?_⟩, ?_⟩⟩
  · rw [hslice0]
    exact hev
  · rw [hslice1]
    exact hsp1
  · rw [hslice2]
    exact hnum
  · rw [hslice3]
    exact hsp2
  · rw [hslice4]
    exact hy

/-- C8: `convert_event_to_code` maps "Event 10 2025" to "E1025" and
"Event 3 2024" to "E0324"; a name in which the pattern
`Event <digits> <4-digit year>` occurs nowhere (case-insensitively) maps to
"E0000"; and a name containing the pattern maps to "E" followed by the
zero-padded (to two digits) captured event number and the last two digits
of the captured four-digit year — where the captured groups are the ones
of the search (`searchEvent` returns exactly them) and occur in the name
itself: the name decomposes around `num` and `year` in pattern position. -/
theorem convert_event_to_code_spec :
    convert_event_to_code "Event 10 2025" = "E1025" ∧
    convert_event_to_code "Event 3 2024" = "E0324" ∧
    (∀ s : String, eventPatternB s = false → convert_event_to_code s = "E0000") ∧
    (∀ s : String, eventPatternB s = true →
      ∃ num year : List Char,
        searchEvent s.toList = some (num, year) ∧
        num ≠ [] ∧ (∀ c ∈ num, isDigitChar c = true) ∧
        year.length = 4 ∧ (∀ c ∈ year, isDigitChar c = true) ∧
        (∃ pre ev sp1 sp2 rest : List Char,
          s.toList = pre ++ (ev ++ (sp1 ++ (num ++ (sp2 ++ (year ++ rest))))) ∧
          ev.map Char.toLower = ['e', 'v', 'e', 'n', 't'] ∧
          sp1 ≠ [] ∧ (∀ c ∈ sp1, isSpaceChar c = true) ∧
          sp2 ≠ [] ∧ (∀ c ∈ sp2, isSpaceChar c = true)) ∧
        convert_event_to_code s = String.mk ('E' :: (zfill2 num ++ year.drop 2))) := by
  refine ⟨by decide, by decide, ?_, ?_⟩
  · intro s hs
    unfold convert_event_to_code
    cases hm : searchEvent s.toList with
    | none => rfl
    | some g =>
      exfalso
      obtain ⟨num, year⟩ := g
      obtain ⟨i, hi⟩ := searchEvent_some_exists s.toList (num, year) hm
      have ht := eventPatternB_of_match s i num year hi
      rw [hs] at ht
      exact Bool.noConfusion ht
  · intro s hs
    have hsome := searchEvent_isSome_of_pattern s hs
    cases hm : searchEvent s.toList with
    | none =>
      rw [hm] at hsome
      cases hsome
    | some g =>
      obtain ⟨num, year⟩ := g
      obtain ⟨i, hi⟩ := searchEvent_some_exists s.toList (num, year) hm
      obtain ⟨sp1, sp2, rest, hdecomp, hev, hsp1ne, hsp1, hnumne, hnum, hsp2ne, hsp2,
        hylen, hy⟩ := matchEventAt_some_inv _ _ _ hi
      refine ⟨num, year, rfl, hnumne, hnum, hylen, hy,
        ⟨s.toList.take i, (s.toList.drop i).take 5, sp1, sp2, rest, ?_, hev, hsp1ne, hsp1,
          hsp2ne, hsp2⟩, ?_⟩
      · conv_lhs => rw [← List.take_append_drop i s.toList, hdecomp]
      · unfold convert_event_to_code
        rw [hm]

/-- Witness for C8 on a non-matching name and a matching one. -/
theorem convert_event_to_code_spec_witness :
    convert_event_to_code "Invoice draft" = "E0000" ∧
    (∃ num year : List Char,
      searchEvent "Event 7 2031".toList = some (num, year) ∧
      num ≠ [] ∧ (∀ c ∈ num, isDigitChar c = true) ∧
      year.length = 4 ∧ (∀ c ∈ year, isDigitChar c = true) ∧
      (∃ pre ev sp1 sp2 rest : List Char,
        "Event 7 2031".toList = pre ++ (ev ++ (sp1 ++ (num ++ (sp2 ++ (year ++ rest))))) ∧
        ev.map Char.toLower = ['e', 'v', 'e', 'n', 't'] ∧
        sp1 ≠ [] ∧ (∀ c ∈ sp1, isSpaceChar c = true) ∧
        sp2 ≠ [] ∧ (∀ c ∈ sp2, isSpaceChar c = true)) ∧
      convert_event_to_code "Event 7 2031" = String.mk ('E' :: (zfill2 num ++ year.drop 2))) :=
  ⟨convert_event_to_code_spec.2.2.1 "Invoice draft" (by decide),
   convert_event_to_code_spec.2.2.2 "Event 7 2031" (by decide)⟩

end InvoiceApp
